import Mathlib

set_option maxHeartbeats 1000000
set_option maxRecDepth 8000

/-!
Verification of the plaid-to-airtable CLI: a shallow embedding of the
reconciliation engine (`updateAccount`), the pagination fetcher
(`AllTransactions`), the auth-retry wrapper (`WithRelinkOnAuthError`) and the
link-broker HTTP handlers (`handleLink`, `handleRelink`), together with proofs
of the specified properties.

Conventions of the embedding:
 - Go maps become association lists; iteration order is the list order
   (Go's map order is unspecified, and every property proved here is
   order-independent).
 - A Go `panic` becomes the `none` value of an `Option` result.
 - `time.Now().AddDate(0, -1, 0)` (the "now minus one month" cutoff) becomes an
   explicit `cutoff` parameter, since wall-clock time is nondeterministic.
 - Nil pointers become `none` of an `Option`.
-/

/-- Calendar date as produced by Go's `time.Parse` with layout `"2006-01-02"`. -/
structure GoDate where
  year : Nat
  month : Nat
  day : Nat
deriving DecidableEq, Repr

/-- Leap-year rule of the Gregorian calendar, as in Go's time package. -/
def isLeapYear (y : Nat) : Bool :=
  decide (y % 4 = 0 ∧ (y % 100 ≠ 0 ∨ y % 400 = 0))

/-- Number of days of month `m` (1-based) in year `y`. -/
def daysInMonth (y m : Nat) : Nat :=
  if m = 2 then (if isLeapYear y then 29 else 28)
  else if m = 4 ∨ m = 6 ∨ m = 9 ∨ m = 11 then 30
  else 31

/-- Numeric value of a decimal digit character. -/
def digitVal (c : Char) : Nat := c.toNat - '0'.toNat

/-- Model of `time.Parse("2006-01-02", s)`: accepts exactly a `YYYY-MM-DD`
string denoting a valid calendar date and rejects anything else (Go returns an
error in that case, which `updateAccount` turns into a panic). -/
def parseDate (s : String) : Option GoDate :=
  match s.toList with
  | [y1, y2, y3, y4, s1, m1, m2, s2, d1, d2] =>
    if s1 = '-' ∧ s2 = '-' ∧ y1.isDigit ∧ y2.isDigit ∧ y3.isDigit ∧ y4.isDigit ∧
        m1.isDigit ∧ m2.isDigit ∧ d1.isDigit ∧ d2.isDigit then
      let y := ((digitVal y1 * 10 + digitVal y2) * 10 + digitVal y3) * 10 + digitVal y4
      let m := digitVal m1 * 10 + digitVal m2
      let d := digitVal d1 * 10 + digitVal d2
      if 1 ≤ m ∧ m ≤ 12 ∧ 1 ≤ d ∧ d ≤ daysInMonth y m then some ⟨y, m, d⟩ else none
    else none
  | _ => none

/-- Go's `Time.After`: strict lexicographic comparison on (year, month, day). -/
def GoDate.after (a b : GoDate) : Bool :=
  if a.year ≠ b.year then decide (b.year < a.year)
  else if a.month ≠ b.month then decide (b.month < a.month)
  else decide (b.day < a.day)

/-- Go's `Time.Before`: the mirror image of `GoDate.after`. -/
def GoDate.before (a b : GoDate) : Bool := GoDate.after b a

/-- Fields of one transaction row (`TransactionFields` in src/unnamed/part_001). -/
structure TransactionFields where
  PlaidID : String
  AccountID : String
  AccountIDLink : List String
  Amount : Float
  Name : String
  MerchantName : String
  Pending : Bool
  DateTime : String
  PlaidCategory1 : String
  PlaidCategory2 : String
  PlaidCategory3 : String
  Address : String
  CategoryLookup : List String

/-- A transaction row. The embedded `airtable.Record` contributes the storage
identity `ID` (the stored row's record ID); `Fields` carries the domain data. -/
structure TransactionRecord where
  ID : String
  Fields : TransactionFields
  Typecast : Bool

/-- The reconciliation plan for one account (`AccountUpdate` in the source). -/
structure AccountUpdate where
  ToCreate : List TransactionRecord
  ToDelete : List TransactionRecord
  ToUpdate : List TransactionRecord

/-- A Go `map[string]TransactionRecord`, embedded as an association list. -/
abbrev TxMap := List (String × TransactionRecord)

/-- Go map lookup on the association list (first match). -/
def lookupA : TxMap → String → Option TransactionRecord
  | [], _ => none
  | (k, v) :: rest, id => if k = id then some v else lookupA rest id

/-- The key set of the map. -/
def keysA (m : TxMap) : List String := m.map Prod.fst

/-- The maps produced by `byAccountIDbyTransactionID` store each record under
its own `PlaidID`; this is the well-formedness assumption of those inputs. -/
abbrev wellKeyed (m : TxMap) : Prop := ∀ p ∈ m, p.2.Fields.PlaidID = p.1

/-- First loop of `updateAccount` (src/unnamed/part_001:142-152): walks the
source (Plaid) records and accumulates the `(ToCreate, ToUpdate)` pair. A
source record absent from the mirror is created; one present with a changed
`Pending` flag or `Address` is updated, carrying the mirror's record `ID`. -/
def updatePass (airtableTs : TxMap) : TxMap → List TransactionRecord × List TransactionRecord
  | [] => ([], [])
  | (id, t) :: rest =>
    let u := updatePass airtableTs rest
    match lookupA airtableTs id with
    | none => (t :: u.1, u.2)
    | some existing =>
      if existing.Fields.Pending ≠ t.Fields.Pending ∨
          existing.Fields.Address ≠ t.Fields.Address then
        (u.1, { t with ID := existing.ID } :: u.2)
      else u

/-- Second loop of `updateAccount` (src/unnamed/part_001:154-166): walks the
mirror records whose key is absent from the source key set `ids`; a record
whose date does not parse panics (`none`), and one dated strictly after the
cutoff is scheduled for deletion. -/
def deletePass (cutoff : GoDate) (ids : List String) : TxMap → Option (List TransactionRecord)
  | [] => some []
  | (id, t) :: rest =>
    if id ∈ ids then deletePass cutoff ids rest
    else
      match parseDate t.Fields.DateTime with
      | none => none
      | some d =>
        if d.after cutoff then (deletePass cutoff ids rest).map (t :: ·)
        else deletePass cutoff ids rest

/-- Embedding of `updateAccount` from src/unnamed/part_001:139-168. The
`cutoff` parameter stands for `time.Now().AddDate(0, -1, 0)`, that is "now
minus one month"; `none` models the panic on an unparseable mirror date. -/
def updateAccount (cutoff : GoDate) (plaidTs airtableTs : TxMap) : Option AccountUpdate :=
  let cu := updatePass airtableTs plaidTs
  match deletePass cutoff (keysA plaidTs) airtableTs with
  | none => none
  | some ds => some { ToCreate := cu.1, ToDelete := ds, ToUpdate := cu.2 }

/-- The slice of a Plaid transactions-get response that the fetcher reads. -/
structure TransactionsGetResponse (Tx : Type) where
  Transactions : List Tx
  TotalTransactions : Nat
deriving DecidableEq

/-- Outcome of a run of `AllTransactions`: a normal return, a propagated
request error, or the nil-pointer panic in the offset-advance step. -/
inductive FetchOutcome (E Tx : Type) where
  | ok (transactions : List Tx)
  | err (e : E)
  | panicNil
deriving DecidableEq

/-- The `for len(transactions) < int(res.TotalTransactions)` loop of
`AllTransactions` (src/unnamed/part_002:642-651). `total` is fixed by the
first response: the loop condition reads the outer `res`, as the inner `res`
declared in the loop body shadows it only there. `offset` and `count` model
the `req.Options.Offset` and `req.Options.Count` pointers (`none` is nil), so
the offset-advance `SetOffset(*Offset + *Count)` panics when either is nil.
`fuel` bounds the number of modelled iterations, `none` meaning the bound was
hit. Alongside the outcome, the offsets of the page requests issued by the
loop are returned in order. -/
def fetchLoop {E Tx : Type} (getPage : Nat → Except E (TransactionsGetResponse Tx))
    (count : Option Nat) (total : Nat) :
    Nat → Option Nat → List Tx → Option (FetchOutcome E Tx × List Nat)
  | fuel, offset, acc =>
    if acc.length < total then
      match offset, count with
      | some o, some c =>
        match fuel with
        | 0 => none
        | fuel' + 1 =>
          match getPage (o + c) with
          | .error e => some (.err e, [o + c])
          | .ok pg =>
            (fetchLoop getPage count total fuel' (some (o + c)) (acc ++ pg.Transactions)).map
              (fun r => (r.1, (o + c) :: r.2))
      | _, _ => some (.panicNil, [])
    else some (.ok acc, [])

/-- Embedding of `AllTransactions` (src/unnamed/part_002:632-654). `getPage`
models `client.PlaidApi.TransactionsGet` as a function of the request offset;
the initial request goes out with the request's current offset, a nil offset
reading as the server-side default 0. Returns the outcome together with the
offsets of all requests issued, in order. -/
def AllTransactions {E Tx : Type} (getPage : Nat → Except E (TransactionsGetResponse Tx))
    (offset count : Option Nat) (fuel : Nat) : Option (FetchOutcome E Tx × List Nat) :=
  match getPage (offset.getD 0) with
  | .error e => some (.err e, [offset.getD 0])
  | .ok pg =>
    (fetchLoop getPage count pg.TotalTransactions fuel offset pg.Transactions).map
      (fun r => (r.1, offset.getD 0 :: r.2))

/-- A conforming paging server, for the pagination-completeness property: it
holds the master list `all`, reports total `all.length` on every response, and
serves `pageSize` records starting at any requested offset. -/
def modelServer {E Tx : Type} (all : List Tx) (pageSize : Nat) :
    Nat → Except E (TransactionsGetResponse Tx) :=
  fun offset => .ok ⟨(all.drop offset).take pageSize, all.length⟩

/-- The slice of `plaid.TransactionsGetRequestOptions` that the fetcher and the
CLI call sites touch: three optional (pointer-valued) fields. -/
structure TransactionsGetRequestOptions where
  AccountIds : Option (List String)
  Count : Option Nat
  Offset : Option Nat
deriving DecidableEq

/-- Model of `plaid.NewTransactionsGetRequestOptions()`. The plaid-go v27
generated constructor assigns the OpenAPI-declared defaults to properties that
have one: `Count` is set to 100 and `Offset` to 0 (both pointers non-nil),
while `AccountIds`, which has no default, starts out nil. -/
def NewTransactionsGetRequestOptions : TransactionsGetRequestOptions :=
  { AccountIds := none, Count := some 100, Offset := some 0 }

/-- Model of `options.SetAccountIds(ids)`: sets only the account filter. -/
def SetAccountIds (o : TransactionsGetRequestOptions) (ids : List String) :
    TransactionsGetRequestOptions :=
  { o with AccountIds := some ids }

/-- The request options exactly as built at the CLI call sites
`transactionsCommand` (src/unnamed/part_002:312-313) and `airtableSyncCommand`
(src/unnamed/part_002:405-406): a fresh options value with the account filter
set explicitly, `Offset` and `Count` holding the constructor's defaults. -/
def cliRequestOptions (accountIDs : List String) : TransactionsGetRequestOptions :=
  SetAccountIds NewTransactionsGetRequestOptions accountIDs

/-- The fields of `plaid.Error` that the auth-retry wrapper inspects. -/
structure PlaidApiError where
  ErrorCode : String
  ErrorMessage : String
deriving DecidableEq

/-- A Go `error` value: either a Plaid API error or some other error. `none`
at a use site stands for a nil error. -/
inductive GoError where
  | plaidErr (e : PlaidApiError)
  | otherErr (msg : String)
deriving DecidableEq

/-- Model of `plaid.ToPlaidError`: extracts the Plaid API error, and yields
the zero value (empty code) when the error is nil or not a Plaid error. -/
def ToPlaidError : Option GoError → PlaidApiError
  | some (.plaidErr e) => e
  | _ => ⟨"", ""⟩

/-- Embedding of `WithRelinkOnAuthError` (src/unnamed/part_002:656-676).
`action n` is the result of the (n+1)-th invocation of the wrapped closure
(the closure is stateful in Go, so successive invocations may differ), and
`relink` is the result of `linker.Relink`. -/
def WithRelinkOnAuthError (action : Nat → Option GoError) (relink : Option GoError) :
    Option GoError :=
  let err := action 0
  let e := ToPlaidError err
  if e.ErrorCode = "ITEM_LOGIN_REQUIRED" then
    match relink with
    | some rerr => some rerr
    | none => action 1
  else err

/-- What a broker handler pushes onto the Linker's channels; `none` stands for
the GET branch, which renders the page and delivers nothing on any channel. -/
inductive ChannelDelivery where
  | results (token : String)
  | relinkResults (b : Bool)
  | errors (msg : String)
deriving DecidableEq

/-- The request handler returned by `handleLink` (src/unnamed/part_001:405-430).
`form k` models `r.Form.Get(k)`, which returns `""` for an absent field, so an
absent and an empty `public_token` coincide. -/
def handleLink (form : String → String) (method : String) : Option ChannelDelivery :=
  if method = "GET" then none
  else if method = "POST" then
    let token := form "public_token"
    if token ≠ "" then some (.results token)
    else some (.errors "Empty public_token")
  else some (.errors "Invalid HTTP method")

/-- The request handler returned by `handleRelink`
(src/unnamed/part_001:440-465): a non-empty `error` field goes to the error
channel, an absent or empty one signals success on the relink-result channel. -/
def handleRelink (form : String → String) (method : String) : Option ChannelDelivery :=
  if method = "GET" then none
  else if method = "POST" then
    let err := form "error"
    if err ≠ "" then some (.errors err)
    else some (.relinkResults true)
  else some (.errors "Invalid HTTP method")

/-- Sample transaction fields for the concrete witnesses. -/
def sampleFields (pid acct date addr : String) (pending : Bool) : TransactionFields :=
  { PlaidID := pid, AccountID := acct, AccountIDLink := [acct], Amount := 0,
    Name := "n", MerchantName := "m", Pending := pending, DateTime := date,
    PlaidCategory1 := "", PlaidCategory2 := "", PlaidCategory3 := "",
    Address := addr, CategoryLookup := [] }

/-- Sample transaction record for the concrete witnesses. -/
def sampleRec (storageID pid acct date addr : String) (pending : Bool) : TransactionRecord :=
  { ID := storageID, Fields := sampleFields pid acct date addr pending, Typecast := true }

/-- Concrete cutoff for the witnesses: a run with `time.Now()` = 2024-06-01. -/
def cutoffW : GoDate := ⟨2024, 5, 1⟩

/-- Source-only record: present at Plaid, absent from the mirror. -/
def pRec1 : TransactionRecord := sampleRec "p1" "p1" "acct" "2024-05-20" "a1" true

/-- Mirror-only record dated after the cutoff (5 days before "now"). -/
def mRec1 : TransactionRecord := sampleRec "rec1" "m1" "acct" "2024-05-10" "" false

/-- Mirror-only record dated before the cutoff (several months old). -/
def mRec2 : TransactionRecord := sampleRec "rec2" "m2" "acct" "2024-03-01" "" false

/-- Witness source map. -/
def plaidW : TxMap := [("p1", pRec1)]

/-- Witness mirror map. -/
def airtableW : TxMap := [("m1", mRec1), ("m2", mRec2)]

/-- The plan `updateAccount` computes from `plaidW` and `airtableW`. -/
def uW : AccountUpdate := { ToCreate := [pRec1], ToDelete := [mRec1], ToUpdate := [] }

/-- Source record for the update scenario: changed address, same key. -/
def pRec2 : TransactionRecord := sampleRec "p1" "p1" "acct" "2024-05-20" "newaddr" true

/-- Mirror counterpart of `pRec2` with the stored row identity `recX`. -/
def mRec3 : TransactionRecord := sampleRec "recX" "p1" "acct" "2024-05-20" "oldaddr" true

/-- The record `updateAccount` schedules for update: source data under the
mirror's storage identity. -/
def updRec : TransactionRecord := sampleRec "recX" "p1" "acct" "2024-05-20" "newaddr" true

/-- Witness source map for the update scenario. -/
def plaidW2 : TxMap := [("p1", pRec2)]

/-- Witness mirror map for the update scenario. -/
def airtableW2 : TxMap := [("p1", mRec3)]

/-- The plan computed from `plaidW2` and `airtableW2`. -/
def uW2 : AccountUpdate := { ToCreate := [], ToDelete := [], ToUpdate := [updRec] }

/-- Mirror record with an unparseable date, for the panic witness. -/
def badRec : TransactionRecord := sampleRec "recB" "b1" "acct" "garbage" "" false

/-- Witness mirror map containing the malformed record. -/
def badAirtableW : TxMap := [("b1", badRec)]

/-- Witness action for the auth-retry wrapper: fails with the re-auth code on
the first invocation and succeeds on the second. -/
def actW : Nat → Option GoError :=
  fun n => if n = 0 then some (.plaidErr ⟨"ITEM_LOGIN_REQUIRED", "the login details have changed"⟩) else none

/-- Witness form data: a POST carrying a `public_token` and no `error` field. -/
def formW : String → String := fun k => if k = "public_token" then "tok-123" else ""

/-- Witness paging server that fails on the second page. -/
def failingServerW : Nat → Except String (TransactionsGetResponse Nat) :=
  fun o => if o = 0 then .ok ⟨[1, 2], 5⟩ else .error "boom"

theorem before_after_false (a b : GoDate) (h : a.before b = true) : a.after b = false := by
  revert h
  unfold GoDate.before GoDate.after
  split_ifs <;> simp_all <;> omega

theorem mem_keysA {m : TxMap} {id : String} {t : TransactionRecord}
    (h : (id, t) ∈ m) : id ∈ keysA m :=
  List.mem_map.mpr ⟨(id, t), h, rfl⟩

theorem lookupA_eq_none {m : TxMap} {id : String} :
    lookupA m id = none ↔ id ∉ keysA m := by
  induction m with
  | nil => simp [lookupA, keysA]
  | cons p rest ih =>
    obtain ⟨k, v⟩ := p
    simp only [lookupA, keysA, List.map_cons, List.mem_cons]
    split_ifs with h
    · subst h; simp
    · simp only [ih, keysA]
      constructor
      · rintro hn (h1 | h2)
        · exact h h1.symm
        · exact hn h2
      · intro hn h2
        exact hn (Or.inr h2)

theorem mem_unique_of_nodup {m : TxMap} (hnd : (keysA m).Nodup) {id : String}
    {t t' : TransactionRecord} (h1 : (id, t) ∈ m) (h2 : (id, t') ∈ m) : t = t' := by
  induction m with
  | nil => simp at h1
  | cons p rest ih =>
    obtain ⟨k, v⟩ := p
    simp only [keysA, List.map_cons, List.nodup_cons] at hnd
    rcases List.mem_cons.mp h1 with h1 | h1 <;> rcases List.mem_cons.mp h2 with h2 | h2
    · rw [Prod.mk.injEq] at h1 h2
      exact h1.2.trans h2.2.symm
    · rw [Prod.mk.injEq] at h1
      exact absurd (h1.1 ▸ mem_keysA h2) hnd.1
    · rw [Prod.mk.injEq] at h2
      exact absurd (h2.1 ▸ mem_keysA h1) hnd.1
    · exact ih hnd.2 h1 h2

theorem updatePass_cons_none {a : TxMap} {k : String} {v : TransactionRecord} {rest : TxMap}
    (hk : lookupA a k = none) :
    updatePass a ((k, v) :: rest) =
      (v :: (updatePass a rest).1, (updatePass a rest).2) := by
  simp only [updatePass, hk]

theorem updatePass_cons_diff {a : TxMap} {k : String} {v ex : TransactionRecord} {rest : TxMap}
    (hk : lookupA a k = some ex)
    (hne : ex.Fields.Pending ≠ v.Fields.Pending ∨ ex.Fields.Address ≠ v.Fields.Address) :
    updatePass a ((k, v) :: rest) =
      ((updatePass a rest).1, { v with ID := ex.ID } :: (updatePass a rest).2) := by
  simp only [updatePass, hk, if_pos hne]

theorem updatePass_cons_same {a : TxMap} {k : String} {v ex : TransactionRecord} {rest : TxMap}
    (hk : lookupA a k = some ex)
    (hp : ex.Fields.Pending = v.Fields.Pending) (ha : ex.Fields.Address = v.Fields.Address) :
    updatePass a ((k, v) :: rest) = updatePass a rest := by
  have : ¬(ex.Fields.Pending ≠ v.Fields.Pending ∨ ex.Fields.Address ≠ v.Fields.Address) := by
    push_neg
    exact ⟨hp, ha⟩
  simp only [updatePass, hk, if_neg this]

theorem mem_updatePass_fst {a : TxMap} {p : TxMap} {t : TransactionRecord} :
    t ∈ (updatePass a p).1 ↔ ∃ id, (id, t) ∈ p ∧ lookupA a id = none := by
  induction p with
  | nil => simp [updatePass]
  | cons q rest ih =>
    obtain ⟨k, v⟩ := q
    cases hk : lookupA a k with
    | none =>
      rw [updatePass_cons_none hk]
      simp only [List.mem_cons, ih]
      constructor
      · rintro (rfl | ⟨id, hm, hl⟩)
        · exact ⟨k, Or.inl rfl, hk⟩
        · exact ⟨id, Or.inr hm, hl⟩
      · rintro ⟨id, (heq | hm), hl⟩
        · rw [Prod.mk.injEq] at heq
          exact Or.inl heq.2
        · exact Or.inr ⟨id, hm, hl⟩
    | some ex =>
      by_cases hne : ex.Fields.Pending ≠ v.Fields.Pending ∨ ex.Fields.Address ≠ v.Fields.Address
      · rw [updatePass_cons_diff hk hne]
        simp only [ih]
        constructor
        · rintro ⟨id, hm, hl⟩
          exact ⟨id, List.mem_cons_of_mem _ hm, hl⟩
        · rintro ⟨id, hm, hl⟩
          rcases List.mem_cons.mp hm with heq | hm'
          · rw [Prod.mk.injEq] at heq
            rw [heq.1] at hl
            rw [hk] at hl
            cases hl
          · exact ⟨id, hm', hl⟩
      · push_neg at hne
        rw [updatePass_cons_same hk hne.1 hne.2]
        simp only [ih]
        constructor
        · rintro ⟨id, hm, hl⟩
          exact ⟨id, List.mem_cons_of_mem _ hm, hl⟩
        · rintro ⟨id, hm, hl⟩
          rcases List.mem_cons.mp hm with heq | hm'
          · rw [Prod.mk.injEq] at heq
            rw [heq.1] at hl
            rw [hk] at hl
            cases hl
          · exact ⟨id, hm', hl⟩

theorem mem_updatePass_snd {a : TxMap} {p : TxMap} {t' : TransactionRecord} :
    t' ∈ (updatePass a p).2 ↔
      ∃ id t ex, (id, t) ∈ p ∧ lookupA a id = some ex ∧
        (ex.Fields.Pending ≠ t.Fields.Pending ∨ ex.Fields.Address ≠ t.Fields.Address) ∧
        t' = { t with ID := ex.ID } := by
  induction p with
  | nil => simp [updatePass]
  | cons q rest ih =>
    obtain ⟨k, v⟩ := q
    cases hk : lookupA a k with
    | none =>
      rw [updatePass_cons_none hk]
      simp only [ih]
      constructor
      · rintro ⟨id, t, ex, hm, hl, hne, rfl⟩
        exact ⟨id, t, ex, List.mem_cons_of_mem _ hm, hl, hne, rfl⟩
      · rintro ⟨id, t, ex, hm, hl, hne, rfl⟩
        rcases List.mem_cons.mp hm with heq | hm'
        · rw [Prod.mk.injEq] at heq
          rw [heq.1] at hl
          rw [hk] at hl
          cases hl
        · exact ⟨id, t, ex, hm', hl, hne, rfl⟩
    | some ex0 =>
      by_cases hne0 : ex0.Fields.Pending ≠ v.Fields.Pending ∨ ex0.Fields.Address ≠ v.Fields.Address
      · rw [updatePass_cons_diff hk hne0]
        simp only [List.mem_cons, ih]
        constructor
        · rintro (rfl | ⟨id, t, ex, hm, hl, hne, rfl⟩)
          · exact ⟨k, v, ex0, Or.inl rfl, hk, hne0, rfl⟩
          · exact ⟨id, t, ex, Or.inr hm, hl, hne, rfl⟩
        · rintro ⟨id, t, ex, hm, hl, hne, rfl⟩
          rcases hm with heq | hm'
          · rw [Prod.mk.injEq] at heq
            obtain ⟨h1, h2⟩ := heq
            subst h2
            rw [h1] at hl
            rw [hk] at hl
            injection hl with hl
            subst hl
            exact Or.inl rfl
          · exact Or.inr ⟨id, t, ex, hm', hl, hne, rfl⟩
      · push_neg at hne0
        rw [updatePass_cons_same hk hne0.1 hne0.2]
        simp only [ih]
        constructor
        · rintro ⟨id, t, ex, hm, hl, hne, rfl⟩
          exact ⟨id, t, ex, List.mem_cons_of_mem _ hm, hl, hne, rfl⟩
        · rintro ⟨id, t, ex, hm, hl, hne, rfl⟩
          rcases List.mem_cons.mp hm with heq | hm'
          · rw [Prod.mk.injEq] at heq
            obtain ⟨h1, h2⟩ := heq
            subst h2
            rw [h1] at hl
            rw [hk] at hl
            injection hl with hl
            subst hl
            rcases hne with hne | hne
            · exact absurd hne0.1 hne
            · exact absurd hne0.2 hne
          · exact ⟨id, t, ex, hm', hl, hne, rfl⟩

theorem deletePass_cons_skip {c : GoDate} {ids : List String} {k : String}
    {v : TransactionRecord} {rest : TxMap} (h : k ∈ ids) :
    deletePass c ids ((k, v) :: rest) = deletePass c ids rest := by
  simp only [deletePass, if_pos h]

theorem deletePass_cons_bad {c : GoDate} {ids : List String} {k : String}
    {v : TransactionRecord} {rest : TxMap} (h : k ∉ ids)
    (hp : parseDate v.Fields.DateTime = none) :
    deletePass c ids ((k, v) :: rest) = none := by
  simp only [deletePass, if_neg h, hp]

theorem deletePass_cons_after {c : GoDate} {ids : List String} {k : String}
    {v : TransactionRecord} {rest : TxMap} {d : GoDate} (h : k ∉ ids)
    (hp : parseDate v.Fields.DateTime = some d) (ha : d.after c = true) :
    deletePass c ids ((k, v) :: rest) = (deletePass c ids rest).map (v :: ·) := by
  rw [deletePass, if_neg h, hp]
  simp only [ha, if_pos]

theorem deletePass_cons_old {c : GoDate} {ids : List String} {k : String}
    {v : TransactionRecord} {rest : TxMap} {d : GoDate} (h : k ∉ ids)
    (hp : parseDate v.Fields.DateTime = some d) (ha : d.after c = false) :
    deletePass c ids ((k, v) :: rest) = deletePass c ids rest := by
  rw [deletePass, if_neg h, hp]
  simp [ha]

theorem mem_deletePass {c : GoDate} {ids : List String} {a : TxMap}
    {ds : List TransactionRecord} (hds : deletePass c ids a = some ds)
    {t : TransactionRecord} :
    t ∈ ds ↔ ∃ id, (id, t) ∈ a ∧ id ∉ ids ∧
      ∃ d, parseDate t.Fields.DateTime = some d ∧ d.after c = true := by
  induction a generalizing ds with
  | nil =>
    simp only [deletePass] at hds
    injection hds with hds
    subst hds
    simp
  | cons q rest ih =>
    obtain ⟨k, v⟩ := q
    by_cases hk : k ∈ ids
    · rw [deletePass_cons_skip hk] at hds
      rw [ih hds]
      constructor
      · rintro ⟨id, hm, hni, d, hp, ha⟩
        exact ⟨id, List.mem_cons_of_mem _ hm, hni, d, hp, ha⟩
      · rintro ⟨id, hm, hni, d, hp, ha⟩
        rcases List.mem_cons.mp hm with heq | hm'
        · rw [Prod.mk.injEq] at heq
          exact absurd (heq.1 ▸ hk) hni
        · exact ⟨id, hm', hni, d, hp, ha⟩
    · cases hp : parseDate v.Fields.DateTime with
      | none =>
        rw [deletePass_cons_bad hk hp] at hds
        cases hds
      | some d0 =>
        cases ha : d0.after c with
        | false =>
          rw [deletePass_cons_old hk hp ha] at hds
          rw [ih hds]
          constructor
          · rintro ⟨id, hm, hni, d, hpd, had⟩
            exact ⟨id, List.mem_cons_of_mem _ hm, hni, d, hpd, had⟩
          · rintro ⟨id, hm, hni, d, hpd, had⟩
            rcases List.mem_cons.mp hm with heq | hm'
            · rw [Prod.mk.injEq] at heq
              obtain ⟨h1, h2⟩ := heq
              subst h2
              rw [hp] at hpd
              injection hpd with hpd
              subst hpd
              rw [ha] at had
              cases had
            · exact ⟨id, hm', hni, d, hpd, had⟩
        | true =>
          rw [deletePass_cons_after hk hp ha] at hds
          cases hrest : deletePass c ids rest with
          | none =>
            rw [hrest] at hds
            cases hds
          | some ds' =>
            rw [hrest] at hds
            injection hds with hds
            subst hds
            simp only [List.mem_cons, ih hrest]
            constructor
            · rintro (rfl | ⟨id, hm, hni, d, hpd, had⟩)
              · exact ⟨k, Or.inl rfl, hk, d0, hp, ha⟩
              · exact ⟨id, Or.inr hm, hni, d, hpd, had⟩
            · rintro ⟨id, (heq | hm'), hni, d, hpd, had⟩
              · rw [Prod.mk.injEq] at heq
                exact Or.inl heq.2
              · exact Or.inr ⟨id, hm', hni, d, hpd, had⟩

theorem deletePass_none {c : GoDate} {ids : List String} {a : TxMap} {id : String}
    {t : TransactionRecord} (hm : (id, t) ∈ a) (hni : id ∉ ids)
    (hbad : parseDate t.Fields.DateTime = none) :
    deletePass c ids a = none := by
  induction a with
  | nil => simp at hm
  | cons q rest ih =>
    obtain ⟨k, v⟩ := q
    rcases List.mem_cons.mp hm with heq | hm'
    · rw [Prod.mk.injEq] at heq
      obtain ⟨h1, h2⟩ := heq
      subst h1
      subst h2
      exact deletePass_cons_bad hni hbad
    · by_cases hk : k ∈ ids
      · rw [deletePass_cons_skip hk]
        exact ih hm'
      · cases hp : parseDate v.Fields.DateTime with
        | none => exact deletePass_cons_bad hk hp
        | some d0 =>
          cases ha : d0.after c with
          | false =>
            rw [deletePass_cons_old hk hp ha]
            exact ih hm'
          | true =>
            rw [deletePass_cons_after hk hp ha, ih hm']
            rfl

theorem updateAccount_eq_some {c : GoDate} {p a : TxMap} {u : AccountUpdate}
    (h : updateAccount c p a = some u) :
    deletePass c (keysA p) a = some u.ToDelete ∧
      u.ToCreate = (updatePass a p).1 ∧ u.ToUpdate = (updatePass a p).2 := by
  unfold updateAccount at h
  cases hd : deletePass c (keysA p) a with
  | none =>
    rw [hd] at h
    cases h
  | some ds =>
    rw [hd] at h
    injection h with h
    subst h
    exact ⟨rfl, rfl, rfl⟩

/-- C1: for every per-account source/mirror pair given to the reconciliation
engine, a mirror record whose key is absent from the source and whose date is
before the cutoff "now minus one month" is never placed in `ToDelete`, and a
mirror-only record whose date is after that cutoff is placed in `ToDelete`. -/
theorem cutoff_guard (cutoff : GoDate) (plaidTs airtableTs : TxMap) (u : AccountUpdate)
    (id : String) (t : TransactionRecord) (d : GoDate)
    (hwa : wellKeyed airtableTs) (hnd : (keysA airtableTs).Nodup)
    (hu : updateAccount cutoff plaidTs airtableTs = some u)
    (hmem : (id, t) ∈ airtableTs) (hni : id ∉ keysA plaidTs)
    (hd : parseDate t.Fields.DateTime = some d) :
    (d.before cutoff = true → ∀ t' ∈ u.ToDelete, t'.Fields.PlaidID ≠ id) ∧
    (d.after cutoff = true → t ∈ u.ToDelete) := by
  obtain ⟨hds, _, _⟩ := updateAccount_eq_some hu
  constructor
  · intro hbefore t' ht' hkey
    rw [mem_deletePass hds] at ht'
    obtain ⟨id', hm', hni', d', hp', ha'⟩ := ht'
    have hk' : t'.Fields.PlaidID = id' := hwa _ hm'
    rw [hk'] at hkey
    subst hkey
    have : t' = t := mem_unique_of_nodup hnd hm' hmem
    subst this
    rw [hd] at hp'
    injection hp' with hp'
    subst hp'
    rw [before_after_false _ _ hbefore] at ha'
    cases ha'
  · intro hafter
    rw [mem_deletePass hds]
    exact ⟨id, hmem, hni, d, hd, hafter⟩

/-- Witness for C1 at a concrete input: with cutoff 2024-05-01, the mirror-only
record dated 2024-05-10 is scheduled for deletion. -/
theorem cutoff_guard_deletes : mRec1 ∈ uW.ToDelete :=
  (cutoff_guard cutoffW plaidW airtableW uW "m1" mRec1 ⟨2024, 5, 10⟩
    (by decide) (by decide) rfl (List.mem_cons_self _ _) (by decide) (by decide)).2 (by decide)

/-- C2: for every source/mirror input to the reconciliation engine, the
`ToCreate`, `ToUpdate` and `ToDelete` sets of the resulting plan are pairwise
disjoint by (AccountID, RemoteID) key. -/
theorem plan_disjoint (cutoff : GoDate) (plaidTs airtableTs : TxMap) (u : AccountUpdate)
    (hwp : wellKeyed plaidTs) (hwa : wellKeyed airtableTs)
    (hu : updateAccount cutoff plaidTs airtableTs = some u) :
    (∀ a ∈ u.ToCreate, ∀ b ∈ u.ToUpdate,
      (a.Fields.AccountID, a.Fields.PlaidID) ≠ (b.Fields.AccountID, b.Fields.PlaidID)) ∧
    (∀ a ∈ u.ToCreate, ∀ b ∈ u.ToDelete,
      (a.Fields.AccountID, a.Fields.PlaidID) ≠ (b.Fields.AccountID, b.Fields.PlaidID)) ∧
    (∀ a ∈ u.ToUpdate, ∀ b ∈ u.ToDelete,
      (a.Fields.AccountID, a.Fields.PlaidID) ≠ (b.Fields.AccountID, b.Fields.PlaidID)) := by
  obtain ⟨hds, hc, hup⟩ := updateAccount_eq_some hu
  refine ⟨?_, ?_, ?_⟩
  · intro a ha b hb
    rw [hc] at ha
    rw [hup] at hb
    rw [mem_updatePass_fst] at ha
    rw [mem_updatePass_snd] at hb
    obtain ⟨ida, hma, hla⟩ := ha
    obtain ⟨idb, tb, exb, hmb, hlb, _, rfl⟩ := hb
    intro hpair
    have h2 : a.Fields.PlaidID = ida := hwp _ hma
    have h3 : tb.Fields.PlaidID = idb := hwp _ hmb
    have : a.Fields.PlaidID = tb.Fields.PlaidID := congrArg Prod.snd hpair
    rw [h2, h3] at this
    subst this
    rw [hla] at hlb
    cases hlb
  · intro a ha b hb
    rw [hc] at ha
    rw [mem_updatePass_fst] at ha
    rw [mem_deletePass hds] at hb
    obtain ⟨ida, hma, _⟩ := ha
    obtain ⟨idb, hmb, hnib, _⟩ := hb
    intro hpair
    have h2 : a.Fields.PlaidID = ida := hwp _ hma
    have h3 : b.Fields.PlaidID = idb := hwa _ hmb
    have : a.Fields.PlaidID = b.Fields.PlaidID := congrArg Prod.snd hpair
    rw [h2, h3] at this
    subst this
    exact hnib (mem_keysA hma)
  · intro a ha b hb
    rw [hup] at ha
    rw [mem_updatePass_snd] at ha
    rw [mem_deletePass hds] at hb
    obtain ⟨ida, ta, exa, hma, _, _, rfl⟩ := ha
    obtain ⟨idb, hmb, hnib, _⟩ := hb
    intro hpair
    have h2 : ta.Fields.PlaidID = ida := hwp _ hma
    have h3 : b.Fields.PlaidID = idb := hwa _ hmb
    have h4 : ta.Fields.PlaidID = b.Fields.PlaidID := congrArg Prod.snd hpair
    rw [h2, h3] at h4
    subst h4
    exact hnib (mem_keysA hma)

/-- Witness for C2 at a concrete input: the created and the deleted record of
the witness plan have different keys. -/
theorem plan_disjoint_concrete :
    (pRec1.Fields.AccountID, pRec1.Fields.PlaidID) ≠ (mRec1.Fields.AccountID, mRec1.Fields.PlaidID) :=
  (plan_disjoint cutoffW plaidW airtableW uW (by decide) (by decide) rfl).2.1
    pRec1 (List.mem_cons_self _ _) mRec1 (List.mem_cons_self _ _)

/-- C3: every key present in the source but absent from the mirror appears in
`ToCreate`, and every key present in both whose mutable fields (`Pending` and
`Address`) are unchanged appears in neither `ToUpdate` nor `ToDelete`. -/
theorem plan_completeness (cutoff : GoDate) (plaidTs airtableTs : TxMap) (u : AccountUpdate)
    (hwp : wellKeyed plaidTs) (hwa : wellKeyed airtableTs) (hnd : (keysA plaidTs).Nodup)
    (hu : updateAccount cutoff plaidTs airtableTs = some u) :
    (∀ id t, (id, t) ∈ plaidTs → lookupA airtableTs id = none → t ∈ u.ToCreate) ∧
    (∀ id t ex, (id, t) ∈ plaidTs → lookupA airtableTs id = some ex →
      ex.Fields.Pending = t.Fields.Pending → ex.Fields.Address = t.Fields.Address →
      (∀ t' ∈ u.ToUpdate, t'.Fields.PlaidID ≠ id) ∧
      (∀ t' ∈ u.ToDelete, t'.Fields.PlaidID ≠ id)) := by
  obtain ⟨hds, hc, hup⟩ := updateAccount_eq_some hu
  constructor
  · intro id t hm hl
    rw [hc, mem_updatePass_fst]
    exact ⟨id, hm, hl⟩
  · intro id t ex hm hl hpend haddr
    constructor
    · intro t' ht' hkey
      rw [hup, mem_updatePass_snd] at ht'
      obtain ⟨id0, t0, ex0, hm0, hl0, hne0, rfl⟩ := ht'
      have h2 : t0.Fields.PlaidID = id0 := hwp _ hm0
      rw [show ({ t0 with ID := ex0.ID } : TransactionRecord).Fields = t0.Fields from rfl, h2] at hkey
      subst hkey
      have : t0 = t := mem_unique_of_nodup hnd hm0 hm
      subst this
      rw [hl] at hl0
      injection hl0 with hl0
      subst hl0
      rcases hne0 with hne0 | hne0
      · exact hne0 hpend
      · exact hne0 haddr
    · intro t' ht' hkey
      rw [mem_deletePass hds] at ht'
      obtain ⟨id', hm', hni', _⟩ := ht'
      have h3 : t'.Fields.PlaidID = id' := hwa _ hm'
      rw [h3] at hkey
      subst hkey
      exact hni' (mem_keysA hm)

/-- Witness for C3 at a concrete input: the source-only record is created. -/
theorem plan_completeness_creates : pRec1 ∈ uW.ToCreate :=
  (plan_completeness cutoffW plaidW airtableW uW (by decide) (by decide) (by decide) rfl).1
    "p1" pRec1 (List.mem_cons_self _ _) rfl

/-- C4: every record the reconciliation engine places in `ToUpdate` carries the
mirror record's stored storage identity (the stored row's record `ID`), not the
source record's identity. -/
theorem update_identity (cutoff : GoDate) (plaidTs airtableTs : TxMap) (u : AccountUpdate)
    (t' : TransactionRecord)
    (hu : updateAccount cutoff plaidTs airtableTs = some u) (ht' : t' ∈ u.ToUpdate) :
    ∃ id t existing, (id, t) ∈ plaidTs ∧ lookupA airtableTs id = some existing ∧
      t'.ID = existing.ID ∧ t' = { t with ID := existing.ID } := by
  obtain ⟨_, _, hup⟩ := updateAccount_eq_some hu
  rw [hup, mem_updatePass_snd] at ht'
  obtain ⟨id, t, ex, hm, hl, _, rfl⟩ := ht'
  exact ⟨id, t, ex, hm, hl, rfl, rfl⟩

/-- Witness for C4 at a concrete input: the scheduled update carries the
mirror's storage identity `recX`. -/
theorem update_identity_concrete :
    ∃ id t existing, (id, t) ∈ plaidW2 ∧ lookupA airtableW2 id = some existing ∧
      updRec.ID = existing.ID ∧ updRec = { t with ID := existing.ID } :=
  update_identity cutoffW plaidW2 airtableW2 uW2 updRec rfl (List.mem_cons_self _ _)

/-- C9: a mirror record evaluated as a deletion candidate whose date field does
not parse against the fixed date format is fatal for the whole run: the
reconciliation aborts (`none`, the embedded panic) rather than skipping it. -/
theorem unparseable_date_panics (cutoff : GoDate) (plaidTs airtableTs : TxMap)
    (id : String) (t : TransactionRecord)
    (hmem : (id, t) ∈ airtableTs) (hni : id ∉ keysA plaidTs)
    (hbad : parseDate t.Fields.DateTime = none) :
    updateAccount cutoff plaidTs airtableTs = none := by
  unfold updateAccount
  rw [deletePass_none hmem hni hbad]

/-- Witness for C9 at a concrete input: one malformed mirror record aborts the
run. -/
theorem unparseable_date_panics_concrete : updateAccount cutoffW [] badAirtableW = none :=
  unparseable_date_panics cutoffW [] badAirtableW "b1" badRec
    (List.mem_cons_self _ _) (by decide) (by decide)

theorem fetchLoop_exit {E Tx : Type} (getPage : Nat → Except E (TransactionsGetResponse Tx))
    (count : Option Nat) (total : Nat) (fuel : Nat) (offset : Option Nat) (acc : List Tx)
    (h : ¬ acc.length < total) :
    fetchLoop getPage count total fuel offset acc = some (.ok acc, []) := by
  rw [fetchLoop.eq_def]
  exact if_neg h

theorem fetchLoop_panic_offset {E Tx : Type} (getPage : Nat → Except E (TransactionsGetResponse Tx))
    (count : Option Nat) (total : Nat) (fuel : Nat) (acc : List Tx)
    (h : acc.length < total) :
    fetchLoop getPage count total fuel none acc = some (.panicNil, []) := by
  rw [fetchLoop.eq_def]
  exact if_pos h

theorem fetchLoop_panic_count {E Tx : Type} (getPage : Nat → Except E (TransactionsGetResponse Tx))
    (total : Nat) (fuel : Nat) (o : Nat) (acc : List Tx)
    (h : acc.length < total) :
    fetchLoop getPage none total fuel (some o) acc = some (.panicNil, []) := by
  rw [fetchLoop.eq_def]
  exact if_pos h

theorem fetchLoop_fuel_out {E Tx : Type} (getPage : Nat → Except E (TransactionsGetResponse Tx))
    (c : Nat) (total : Nat) (o : Nat) (acc : List Tx)
    (h : acc.length < total) :
    fetchLoop getPage (some c) total 0 (some o) acc = none := by
  rw [fetchLoop.eq_def]
  exact if_pos h

theorem fetchLoop_loop {E Tx : Type} (getPage : Nat → Except E (TransactionsGetResponse Tx))
    (c : Nat) (total : Nat) (fuel : Nat) (o : Nat) (acc : List Tx)
    (h : acc.length < total) :
    fetchLoop getPage (some c) total (fuel + 1) (some o) acc =
      match getPage (o + c) with
      | .error e => some (.err e, [o + c])
      | .ok pg =>
        (fetchLoop getPage (some c) total fuel (some (o + c)) (acc ++ pg.Transactions)).map
          (fun r => (r.1, (o + c) :: r.2)) := by
  rw [fetchLoop.eq_def]
  exact if_pos h

theorem ceil_div_eq_succ (P T j : Nat) (hP : 0 < P) (h1 : j * P < T) (h2 : T ≤ (j + 1) * P) :
    (T + P - 1) / P = j + 1 := by
  have e1 : (j + 1 + 1) * P = j * P + P + P := by ring
  have e2 : (j + 1) * P = j * P + P := by ring
  apply Nat.div_eq_of_lt_le <;> omega

theorem fetchLoop_model (Tx : Type) (all : List Tx) (P : Nat) (hP : 0 < P) :
    ∀ fuel j, 0 < j → all.length ≤ j * P + fuel * P →
    ∃ tail,
      fetchLoop (E := String) (modelServer all P) (some P) all.length fuel
        (some ((j - 1) * P)) (all.take (j * P)) = some (.ok all, tail) ∧
      j + tail.length = if all.length ≤ j * P then j else (all.length + P - 1) / P := by
  intro fuel
  induction fuel with
  | zero =>
    intro j hj hle
    simp only [Nat.zero_mul, Nat.add_zero] at hle
    refine ⟨[], ?_, ?_⟩
    · have hlen : (all.take (j * P)).length = all.length := by
        rw [List.length_take]
        omega
      rw [fetchLoop_exit _ _ _ _ _ _ (by rw [hlen]; omega),
        List.take_of_length_le hle]
    · rw [if_pos hle]
      simp
  | succ fuel ih =>
    intro j hj hle
    by_cases hc : all.length ≤ j * P
    · refine ⟨[], ?_, ?_⟩
      · have hlen : (all.take (j * P)).length = all.length := by
          rw [List.length_take]
          omega
        rw [fetchLoop_exit _ _ _ _ _ _ (by rw [hlen]; omega),
          List.take_of_length_le hc]
      · rw [if_pos hc]
        simp
    · push_neg at hc
      have hcond : (all.take (j * P)).length < all.length := by
        rw [List.length_take]
        omega
      have hoff : (j - 1) * P + P = j * P := by
        have h1 : (j - 1 + 1) * P = (j - 1) * P + P := by ring
        have hj1 : j - 1 + 1 = j := by omega
        rw [hj1] at h1
        omega
      have hih := ih (j + 1) (by omega) (by
        have e1 : (j + 1) * P = j * P + P := by ring
        have e2 : (fuel + 1) * P = fuel * P + P := by ring
        omega)
      have hsub : (j + 1 - 1) * P = j * P := by
        congr 1
      obtain ⟨tail', heq', hcount'⟩ := hih
      rw [hsub] at heq'
      have hacc : all.take (j * P) ++ (all.drop (j * P)).take P = all.take ((j + 1) * P) := by
        rw [← List.take_add]
        congr 1
        ring
      refine ⟨j * P :: tail', ?_, ?_⟩
      · rw [fetchLoop_loop _ _ _ _ _ _ hcond, hoff]
        show (fetchLoop (E := String) (modelServer all P) (some P) all.length fuel
            (some (j * P)) (all.take (j * P) ++ (all.drop (j * P)).take P)).map
            (fun r => (r.1, j * P :: r.2)) = _
        rw [hacc, heq']
        rfl
      · rw [if_neg (by omega)]
        by_cases h2 : all.length ≤ (j + 1) * P
        · rw [if_pos h2] at hcount'
          have hce : (all.length + P - 1) / P = j + 1 :=
            ceil_div_eq_succ P all.length j hP hc h2
          simp only [List.length_cons]
          omega
        · rw [if_neg h2] at hcount'
          simp only [List.length_cons]
          omega

/-- C5: against a conforming paging server with total count T and page size P,
the fetcher returns exactly the server's T records in server-delivered order
with no duplicates, issuing ceil(T/P) requests, except that a total count of
zero still takes the one initial request. -/
theorem pagination_complete (Tx : Type) (all : List Tx) (P fuel : Nat)
    (hP : 0 < P) (hfuel : all.length ≤ P + fuel * P) :
    ∃ offs,
      AllTransactions (E := String) (modelServer all P) (some 0) (some P) fuel
        = some (.ok all, offs) ∧
      offs.length = if all.length = 0 then 1 else (all.length + P - 1) / P := by
  obtain ⟨tail, heq, hcount⟩ :=
    fetchLoop_model Tx all P hP fuel 1 (by omega) (by omega)
  simp only [Nat.one_mul, Nat.sub_self, Nat.zero_mul] at heq
  refine ⟨0 :: tail, ?_, ?_⟩
  · show (fetchLoop (E := String) (modelServer all P) (some P) all.length fuel
        (some 0) ((all.drop 0).take P)).map (fun r => (r.1, 0 :: r.2)) = _
    rw [List.drop_zero, heq]
    rfl
  · simp only [List.length_cons]
    rw [Nat.one_mul] at hcount
    by_cases h0 : all.length = 0
    · rw [if_pos h0]
      rw [if_pos (by omega)] at hcount
      omega
    · rw [if_neg h0]
      by_cases h1 : all.length ≤ P
      · rw [if_pos h1] at hcount
        have hce : (all.length + P - 1) / P = 0 + 1 :=
          ceil_div_eq_succ P all.length 0 hP (by omega) (by omega)
        omega
      · rw [if_neg h1] at hcount
        omega

/-- Witness for C5 at a concrete input: 250 records at page size 100 are all
returned using exactly 3 requests. -/
theorem pagination_complete_concrete :
    ∃ offs,
      AllTransactions (E := String) (modelServer (List.range 250) 100) (some 0) (some 100) 4
        = some (.ok (List.range 250), offs) ∧
      offs.length = if (List.range 250).length = 0 then 1
        else ((List.range 250).length + 100 - 1) / 100 :=
  pagination_complete Nat (List.range 250) 100 4 (by omega) (by simp)

theorem fetchLoop_requests {E Tx : Type} (getPage : Nat → Except E (TransactionsGetResponse Tx))
    (count : Option Nat) (total : Nat) :
    ∀ fuel offset acc out offs,
      fetchLoop getPage count total fuel offset acc = some (out, offs) →
      (∀ e, out = .err e → ∃ pre oLast, offs = pre ++ [oLast] ∧ getPage oLast = .error e ∧
        ∀ o ∈ pre, ∃ pg, getPage o = .ok pg) ∧
      (∀ txs, out = .ok txs → ∀ o ∈ offs, ∃ pg, getPage o = .ok pg) := by
  intro fuel
  induction fuel with
  | zero =>
    intro offset acc out offs h
    by_cases hc : acc.length < total
    · cases offset with
      | none =>
        rw [fetchLoop_panic_offset _ _ _ _ _ hc] at h
        injection h with h
        rw [Prod.mk.injEq] at h
        constructor
        · intro e he
          rw [← h.1] at he
          cases he
        · intro txs htxs
          rw [← h.1] at htxs
          cases htxs
      | some o =>
        cases count with
        | none =>
          rw [fetchLoop_panic_count _ _ _ _ _ hc] at h
          injection h with h
          rw [Prod.mk.injEq] at h
          constructor
          · intro e he
            rw [← h.1] at he
            cases he
          · intro txs htxs
            rw [← h.1] at htxs
            cases htxs
        | some c =>
          rw [fetchLoop_fuel_out _ _ _ _ _ hc] at h
          cases h
    · rw [fetchLoop_exit _ _ _ _ _ _ hc] at h
      injection h with h
      rw [Prod.mk.injEq] at h
      constructor
      · intro e he
        rw [← h.1] at he
        cases he
      · intro txs htxs
        rw [← h.2]
        simp
  | succ fuel ih =>
    intro offset acc out offs h
    by_cases hc : acc.length < total
    · cases offset with
      | none =>
        rw [fetchLoop_panic_offset _ _ _ _ _ hc] at h
        injection h with h
        rw [Prod.mk.injEq] at h
        constructor
        · intro e he
          rw [← h.1] at he
          cases he
        · intro txs htxs
          rw [← h.1] at htxs
          cases htxs
      | some o =>
        cases count with
        | none =>
          rw [fetchLoop_panic_count _ _ _ _ _ hc] at h
          injection h with h
          rw [Prod.mk.injEq] at h
          constructor
          · intro e he
            rw [← h.1] at he
            cases he
          · intro txs htxs
            rw [← h.1] at htxs
            cases htxs
        | some c =>
          rw [fetchLoop_loop _ _ _ _ _ _ hc] at h
          cases hpg : getPage (o + c) with
          | error e0 =>
            rw [hpg] at h
            injection h with h
            rw [Prod.mk.injEq] at h
            constructor
            · intro e he
              rw [← h.1] at he
              injection he with he
              subst he
              exact ⟨[], o + c, by rw [← h.2]; rfl, hpg, by simp⟩
            · intro txs htxs
              rw [← h.1] at htxs
              cases htxs
          | ok pg =>
            rw [hpg] at h
            have h2 : (fetchLoop getPage (some c) total fuel (some (o + c))
                (acc ++ pg.Transactions)).map (fun r => (r.1, (o + c) :: r.2))
                = some (out, offs) := h
            cases hrec : fetchLoop getPage (some c) total fuel (some (o + c))
                (acc ++ pg.Transactions) with
            | none =>
              rw [hrec] at h2
              cases h2
            | some r =>
              obtain ⟨out', offs'⟩ := r
              rw [hrec] at h2
              injection h2 with h
              rw [Prod.mk.injEq] at h
              obtain ⟨hout, hoffs⟩ := h
              obtain ⟨ihe, ihok⟩ := ih (some (o + c)) (acc ++ pg.Transactions) out' offs' hrec
              constructor
              · intro e he
                rw [← hout] at he
                obtain ⟨pre, oLast, hsplit, herr, hok⟩ := ihe e he
                refine ⟨(o + c) :: pre, oLast, ?_, herr, ?_⟩
                · rw [← hoffs, hsplit]
                  rfl
                · intro o' ho'
                  rcases List.mem_cons.mp ho' with rfl | ho'
                  · exact ⟨pg, hpg⟩
                  · exact hok o' ho'
              · intro txs htxs
                rw [← hout] at htxs
                intro o' ho'
                rw [← hoffs] at ho'
                rcases List.mem_cons.mp ho' with rfl | ho'
                · exact ⟨pg, hpg⟩
                · exact ihok txs htxs o' ho'
    · rw [fetchLoop_exit _ _ _ _ _ _ hc] at h
      injection h with h
      rw [Prod.mk.injEq] at h
      constructor
      · intro e he
        rw [← h.1] at he
        cases he
      · intro txs htxs
        rw [← h.2]
        simp

/-- C6: whenever a page request made by the pagination fetcher errors, the
fetcher issues no further requests and propagates that first error to its
caller: an `err` outcome means the last issued request failed with exactly that
error and all earlier requests succeeded, and an `ok` outcome means no issued
request failed. -/
theorem error_propagation (E Tx : Type) (getPage : Nat → Except E (TransactionsGetResponse Tx))
    (offset count : Option Nat) (fuel : Nat) (out : FetchOutcome E Tx) (offs : List Nat)
    (h : AllTransactions getPage offset count fuel = some (out, offs)) :
    (∀ e, out = .err e → ∃ pre oLast, offs = pre ++ [oLast] ∧ getPage oLast = .error e ∧
      ∀ o ∈ pre, ∃ pg, getPage o = .ok pg) ∧
    (∀ txs, out = .ok txs → ∀ o ∈ offs, ∃ pg, getPage o = .ok pg) := by
  unfold AllTransactions at h
  cases hpg : getPage (offset.getD 0) with
  | error e0 =>
    rw [hpg] at h
    have h2 : (some (FetchOutcome.err e0, [offset.getD 0]) :
        Option (FetchOutcome E Tx × List Nat)) = some (out, offs) := h
    injection h2 with h
    rw [Prod.mk.injEq] at h
    constructor
    · intro e he
      rw [← h.1] at he
      injection he with he
      subst he
      exact ⟨[], offset.getD 0, by rw [← h.2]; rfl, hpg, by simp⟩
    · intro txs htxs
      rw [← h.1] at htxs
      cases htxs
  | ok pg =>
    rw [hpg] at h
    have h2 : (fetchLoop getPage count pg.TotalTransactions fuel offset
        pg.Transactions).map (fun r => (r.1, offset.getD 0 :: r.2)) = some (out, offs) := h
    cases hrec : fetchLoop getPage count pg.TotalTransactions fuel offset pg.Transactions with
    | none =>
      rw [hrec] at h2
      cases h2
    | some r =>
      obtain ⟨out', offs'⟩ := r
      rw [hrec] at h2
      injection h2 with h
      rw [Prod.mk.injEq] at h
      obtain ⟨hout, hoffs⟩ := h
      obtain ⟨ihe, ihok⟩ := fetchLoop_requests getPage count pg.TotalTransactions fuel
        offset pg.Transactions out' offs' hrec
      constructor
      · intro e he
        rw [← hout] at he
        obtain ⟨pre, oLast, hsplit, herr, hok⟩ := ihe e he
        refine ⟨offset.getD 0 :: pre, oLast, ?_, herr, ?_⟩
        · rw [← hoffs, hsplit]
          rfl
        · intro o' ho'
          rcases List.mem_cons.mp ho' with rfl | ho'
          · exact ⟨pg, hpg⟩
          · exact hok o' ho'
      · intro txs htxs
        rw [← hout] at htxs
        intro o' ho'
        rw [← hoffs] at ho'
        rcases List.mem_cons.mp ho' with rfl | ho'
        · exact ⟨pg, hpg⟩
        · exact ihok txs htxs o' ho'

/-- Witness for C6 at a concrete input: the server failing on its second page
stops the fetch at that request and surfaces the error. -/
theorem error_propagation_concrete :
    ∃ pre oLast, ([0, 2] : List Nat) = pre ++ [oLast] ∧ failingServerW oLast = .error "boom" ∧
      ∀ o ∈ pre, ∃ pg, failingServerW o = .ok pg :=
  (error_propagation String Nat failingServerW (some 0) (some 2) 3 (.err "boom") [0, 2]
    (by rfl)).1 "boom" rfl

/-- C10, counterexample: with the options as the CLI call sites actually build
them and a server holding 250 records at page size 100, the multi-page fetch
does not crash: it pages through at offsets 0, 100, 200 and returns all 250
records, refuting "the multi-page branch is a crash for those callers". -/
theorem cli_no_crash_counterexample :
    AllTransactions (E := String) (modelServer (List.range 250) 100)
      (cliRequestOptions ["acct"]).Offset (cliRequestOptions ["acct"]).Count 4
      = some (.ok (List.range 250), [0, 100, 200]) := by
  rfl

/-- C10, amended: the offset-advance step dereferences the request's
`Options.Offset` and `Options.Count` pointers, so both must be non-nil for any
multi-page fetch (nil pointers panic that branch); the CLI call sites build
their options with the generated constructor, which assigns the defaults
`Offset` = 0 and `Count` = 100, so both pointers are set and a multi-page
fetch against a conforming server pages through to completion instead of
crashing. -/
theorem cli_options_defaults_page (accountIDs : List String) :
    (cliRequestOptions accountIDs).Offset = some 0 ∧
    (cliRequestOptions accountIDs).Count = some 100 ∧
    (∀ (E Tx : Type) (getPage : Nat → Except E (TransactionsGetResponse Tx))
      (pg : TransactionsGetResponse Tx) (fuel : Nat),
      getPage 0 = .ok pg → pg.Transactions.length < pg.TotalTransactions →
      AllTransactions getPage none none fuel = some (.panicNil, [0])) ∧
    (∀ (Tx : Type) (all : List Tx) (fuel : Nat), all.length ≤ 100 + fuel * 100 →
      ∃ offs,
        AllTransactions (E := String) (modelServer all 100) (cliRequestOptions accountIDs).Offset
          (cliRequestOptions accountIDs).Count fuel = some (.ok all, offs) ∧
        offs.length = if all.length = 0 then 1 else (all.length + 100 - 1) / 100) := by
  refine ⟨rfl, rfl, ?_, ?_⟩
  · intro E Tx getPage pg fuel h0 hmulti
    unfold AllTransactions
    rw [show (none : Option Nat).getD 0 = 0 from rfl, h0]
    show (fetchLoop getPage none pg.TotalTransactions fuel none pg.Transactions).map
      (fun r => (r.1, 0 :: r.2)) = _
    rw [fetchLoop_panic_offset _ _ _ _ _ hmulti]
    rfl
  · intro Tx all fuel hfuel
    obtain ⟨tail, heq, hcount⟩ :=
      fetchLoop_model Tx all 100 (by omega) fuel 1 (by omega) (by omega)
    simp only [Nat.one_mul, Nat.sub_self, Nat.zero_mul] at heq
    refine ⟨0 :: tail, ?_, ?_⟩
    · show (fetchLoop (E := String) (modelServer all 100) (some 100) all.length fuel
          (some 0) ((all.drop 0).take 100)).map (fun r => (r.1, 0 :: r.2)) = _
      rw [List.drop_zero, heq]
      rfl
    · simp only [List.length_cons]
      rw [Nat.one_mul] at hcount
      by_cases h0 : all.length = 0
      · rw [if_pos h0]
        rw [if_pos (by omega)] at hcount
        omega
      · rw [if_neg h0]
        by_cases h1 : all.length ≤ 100
        · rw [if_pos h1] at hcount
          have hce : (all.length + 100 - 1) / 100 = 0 + 1 :=
            ceil_div_eq_succ 100 all.length 0 (by omega) (by omega) (by omega)
          omega
        · rw [if_neg h1] at hcount
          omega

/-- Witness for the amended C10 at concrete inputs: nil pointers crash a
3-record multi-page fetch, while the CLI-configured fetch of 250 records
completes in 3 requests. -/
theorem cli_options_defaults_page_check :
    AllTransactions (fun _ => (.ok ⟨[1], 3⟩ : Except String (TransactionsGetResponse Nat)))
      none none 7 = some (.panicNil, [0]) ∧
    ∃ offs,
      AllTransactions (E := String) (modelServer (List.range 250) 100)
        (cliRequestOptions ["acct"]).Offset (cliRequestOptions ["acct"]).Count 4
        = some (.ok (List.range 250), offs) ∧
      offs.length = if (List.range 250).length = 0 then 1
        else ((List.range 250).length + 100 - 1) / 100 :=
  ⟨(cli_options_defaults_page ["acct"]).2.2.1 String Nat (fun _ => .ok ⟨[1], 3⟩) ⟨[1], 3⟩ 7
      rfl (by decide),
    (cli_options_defaults_page ["acct"]).2.2.2 Nat (List.range 250) 4 (by simp)⟩

/-- C7: the auth-retry wrapper returns the action's original result unchanged
unless the error carries the ITEM_LOGIN_REQUIRED code; on that code it relinks
once and, on relink success, re-executes the action exactly once and returns
that second result whatever it is, while on relink failure it returns the
relink error. -/
theorem relink_retry (action : Nat → Option GoError) (relink : Option GoError) :
    ((ToPlaidError (action 0)).ErrorCode ≠ "ITEM_LOGIN_REQUIRED" →
      WithRelinkOnAuthError action relink = action 0) ∧
    ((ToPlaidError (action 0)).ErrorCode = "ITEM_LOGIN_REQUIRED" →
      (relink = none → WithRelinkOnAuthError action relink = action 1) ∧
      (∀ e, relink = some e → WithRelinkOnAuthError action relink = some e)) := by
  unfold WithRelinkOnAuthError
  constructor
  · intro h
    rw [if_neg h]
  · intro h
    constructor
    · intro hr
      rw [if_pos h, hr]
    · intro e hr
      rw [if_pos h, hr]

/-- Witness for C7 at a concrete input: an action failing once with the re-auth
code succeeds after exactly one relink and re-execution. -/
theorem relink_retry_concrete : WithRelinkOnAuthError actW none = none :=
  ((relink_retry actW none).2 rfl).1 rfl

/-- C8: a POST to /link with a non-empty `public_token` delivers the token on
the result channel and an absent or empty one delivers an error on the error
channel; a POST to /relink with an absent or empty `error` field signals
success on the relink-result channel and a non-empty one is delivered on the
error channel. -/
theorem link_form_delivery (form : String → String) :
    (form "public_token" ≠ "" →
      handleLink form "POST" = some (.results (form "public_token"))) ∧
    (form "public_token" = "" →
      handleLink form "POST" = some (.errors "Empty public_token")) ∧
    (form "error" = "" → handleRelink form "POST" = some (.relinkResults true)) ∧
    (form "error" ≠ "" → handleRelink form "POST" = some (.errors (form "error"))) := by
  refine ⟨?_, ?_, ?_, ?_⟩ <;> intro h <;>
    simp [handleLink, handleRelink, h]

/-- Witness for C8 at a concrete input: a form with a token and no error field
takes the success paths of both handlers. -/
theorem link_form_delivery_concrete :
    handleLink formW "POST" = some (.results "tok-123") ∧
    handleRelink formW "POST" = some (.relinkResults true) :=
  ⟨(link_form_delivery formW).1 (by decide), (link_form_delivery formW).2.2.1 (by decide)⟩
